import Mathlib

/-!
# Kongress: favourites engine and conference catalogue

A shallow embedding of `src/eventcontroller.cpp` (`EventController::eventCheck`,
`EventController::addEdit`) and `src/conferencecontroller.cpp`
(`ConferenceController::loadConferences`, `loadConferencesFromFile`,
`loadConference`, `loadDefaultConference`), with the properties of the
specification stated and proved over it.

Qt and KCalendarCore values are embedded as plain data:

* a `QDateTime` is either invalid or an instant (milliseconds since the epoch)
  shown at an offset from UTC;
* a `QVariantMap` of event data is the record of the values its conversions
  (`toString`, `toDateTime`, `toBool`) give for the keys the code reads;
* objects mutated through pointers become values passed in and returned;
* emitted signals and `save` calls are recorded in counters and logs.
-/

namespace Kongress

/-! ## Qt date and time -/

/-- A `QDateTime`: invalid, or an instant in milliseconds since the epoch together with
the offset from UTC (in seconds) of the zone it is shown in. -/
inductive QDateTime where
  | invalid
  | dateTime (msecs : Int) (offsetFromUtc : Int)
deriving DecidableEq, Repr

/-- A `QDate` as a day number counted from 1970-01-01; `none` is the invalid date. -/
abbrev QDate := Option Int

/-- `QTimeZone::utc()` as an offset from UTC. -/
def utc : Int := 0

/-- Milliseconds in a day. -/
def msecsPerDay : Int := 86400000

/-- `QDateTime::isValid`. -/
def QDateTime.isValid : QDateTime → Bool
  | .invalid => false
  | .dateTime _ _ => true

/-- `QDateTime::toTimeZone`: the same instant shown in another zone. -/
def QDateTime.toTimeZone : QDateTime → Int → QDateTime
  | .invalid, _ => .invalid
  | .dateTime msecs _, zone => .dateTime msecs zone

/-- `QDateTime::date`: the calendar day of the instant in its own zone. -/
def QDateTime.date : QDateTime → QDate
  | .invalid => none
  | .dateTime msecs offsetFromUtc => some ((msecs + 1000 * offsetFromUtc) / msecsPerDay)

/-- `operator<` of `QDateTime`: instants are compared; an invalid value is below every
valid one and equivalent to every other invalid one. -/
def QDateTime.lt : QDateTime → QDateTime → Bool
  | .invalid, .invalid => false
  | .invalid, .dateTime _ _ => true
  | .dateTime _ _, .invalid => false
  | .dateTime a _, .dateTime b _ => decide (a < b)

/-- `operator>` of `QDateTime`. -/
def QDateTime.gt (a b : QDateTime) : Bool := QDateTime.lt b a

/-! ## Events and the memory calendar -/

/-- The fields of a `KCalendarCore::Event` that the controller reads and writes. The
getters return what the setters stored; the categories are kept as the one string given
to `setCategories`. -/
structure Event where
  uid : String
  dtStart : QDateTime
  dtEnd : QDateTime
  description : String
  categories : String
  summary : String
  allDay : Bool
  location : String
  url : String
deriving DecidableEq, Repr

/-- `new Event()`: an event with the identity the library generates for it and no data. -/
def Event.new (freshUid : String) : Event :=
  { uid := freshUid, dtStart := .invalid, dtEnd := .invalid, description := "",
    categories := "", summary := "", allDay := false, location := "", url := "" }

/-- Modelled from the spec: the EventStore capability (KCalendarCore's `MemoryCalendar`,
not part of the sources): a collection of events keyed by uid, addressable by date, with
the time zone of the calendar as an offset from UTC. -/
structure MemoryCalendar where
  events : List Event
  timeZone : Int
deriving DecidableEq, Repr

/-- The store invariant: the collection is keyed by uid. -/
def MemoryCalendar.Keyed (cal : MemoryCalendar) : Prop :=
  (cal.events.map Event.uid).Nodup

instance (cal : MemoryCalendar) : Decidable cal.Keyed :=
  inferInstanceAs (Decidable (cal.events.map Event.uid).Nodup)

/-- Modelled from the spec: `eventByUid(uid)` of the EventStore
(`MemoryCalendar::event`): the stored event with that uid, if any. -/
def MemoryCalendar.event (cal : MemoryCalendar) (uid : String) : Option Event :=
  cal.events.find? (fun e => decide (e.uid = uid))

/-- Modelled from the spec: `upsert(event)` of the EventStore
(`MemoryCalendar::addEvent`): add if the uid is absent, replace if present. -/
def MemoryCalendar.addEvent (cal : MemoryCalendar) (event : Event) : MemoryCalendar :=
  if cal.events.any (fun e => decide (e.uid = event.uid)) then
    { cal with events := cal.events.map (fun e => if e.uid = event.uid then event else e) }
  else
    { cal with events := cal.events ++ [event] }

/-- Modelled from the spec: whether a stored event falls on a calendar day in a zone
(the test behind `eventsOnDate`, which the sources do not hold): the day lies between the
day the event starts and the day it ends; an event always falls on the day it starts. -/
def Event.fallsOn (e : Event) (day : Int) (zone : Int) : Bool :=
  match (e.dtStart.toTimeZone zone).date, (e.dtEnd.toTimeZone zone).date with
  | some first, some last => decide (day = first) || (decide (first ≤ day) && decide (day ≤ last))
  | some first, none => decide (day = first)
  | none, _ => false

/-- Modelled from the spec: `eventsOnDate(date, timezone)` of the EventStore
(`MemoryCalendar::rawEventsForDate`): the stored events that fall on the calendar day,
in store order; no event falls on an invalid date. -/
def MemoryCalendar.rawEventsForDate (cal : MemoryCalendar) (date : QDate) (zone : Int) :
    List Event :=
  match date with
  | none => []
  | some day => cal.events.filter (fun e => e.fallsOn day zone)

/-! ## The event controller -/

/-- The outcome codes of the event controller (the enumeration of `eventcontroller.h`). -/
inductive Status where
  | Exists
  | NotExistsButOverlaps
  | NotExistsNotOverlapping
  | NoCalendarExists
deriving DecidableEq, Repr

/-- The event data handed to the controller: for each key of the `QVariantMap` that the
code reads, the value its conversion gives (an absent key gives the empty string, an
invalid date, or false). -/
structure EventData where
  uid : String
  startDate : QDateTime
  endDate : QDateTime
  description : String
  categories : String
  summary : String
  allDay : Bool
  location : String
  url : String
deriving DecidableEq, Repr

/-- The `LocalCalendar` of one conference: its id, its memory calendar, and the number of
`eventsChanged` signals it has emitted. -/
structure LocalCalendar where
  calendarId : String
  memorycalendar : MemoryCalendar
  eventsChanged : Nat
deriving DecidableEq, Repr

/-- The `CalendarController`, seen through its `save`: the calendar ids it was asked to
save, in call order. -/
structure CalendarController where
  saved : List String
deriving DecidableEq, Repr

/-- `CalendarController::save(calendarId)`; the success flag it returns is only logged
by its callers. -/
def CalendarController.save (c : CalendarController) (calendarId : String) :
    CalendarController :=
  { c with saved := c.saved ++ [calendarId] }

/-- The `EventController`: its calendar controller, which may be null. -/
structure EventController where
  m_cal_controller : Option CalendarController
deriving DecidableEq, Repr

/-- The map `eventCheck` returns: keys `result` and `events`. -/
structure EventCheckResponse where
  result : Status
  events : String
deriving DecidableEq, Repr

/-- The map `addEdit` returns: keys `status` and `message`. -/
structure AddEditResponse where
  status : Status
  message : String
deriving DecidableEq, Repr

/-- `i18n` with no translation loaded: the message itself. -/
def i18n (text : String) : String := text

/-- `i18n` of a message that ends in the placeholder `%1`, with its argument: the text
before the placeholder, followed by the argument. -/
def i18nArg (textBeforeArg : String) (arg : String) : String :=
  i18n textBeforeArg ++ arg

/-- `QStringList::join`. -/
def join (parts : List String) (separator : String) : String :=
  separator.intercalate parts

/-- The condition under which `eventCheck` records an existing event as overlapping. -/
def overlaps (eventStart eventEnd : QDateTime) (e : Event) : Bool :=
  eventStart.lt e.dtEnd && eventEnd.gt e.dtStart

/-- The loop of `eventCheck` over the existing events of the day: `none` when it returns
early on a uid match, otherwise the overlapping summaries collected. -/
def eventCheckLoop (eventStart eventEnd : QDateTime) (eventUid : String) :
    List Event → List String → Option (List String)
  | [], overlappingEvents => some overlappingEvents
  | e :: rest, overlappingEvents =>
    let overlappingEvents :=
      if overlaps eventStart eventEnd e then overlappingEvents ++ [e.summary]
      else overlappingEvents
    if !(eventUid.isEmpty) && decide (e.uid = eventUid) then none
    else eventCheckLoop eventStart eventEnd eventUid rest overlappingEvents

/-- `EventController::eventCheck`. -/
def eventCheck (calendar : LocalCalendar) (event : EventData) : EventCheckResponse :=
  let response : EventCheckResponse := { result := .NotExistsNotOverlapping, events := "" }
  let memoryCalendar := calendar.memorycalendar
  let eventStart := event.startDate
  let eventEnd := event.endDate
  let eventUid := event.uid
  if !(eventStart.isValid) || !(eventEnd.isValid) then response
  else
    let existingEvents := memoryCalendar.rawEventsForDate eventStart.date memoryCalendar.timeZone
    match eventCheckLoop eventStart eventEnd eventUid existingEvents [] with
    | none => { response with result := .Exists }
    | some overlappingEvents =>
      if !(overlappingEvents.isEmpty) then
        { result := .NotExistsButOverlaps, events := join overlappingEvents "\n" }
      else response

/-- The event `addEdit` writes: the event found under the uid, or a new one, with every
field set from the event data. -/
def editedEvent (found : Option Event) (freshUid : String) (eventData : EventData) : Event :=
  let event := match found with
    | some event => event
    | none => Event.new freshUid
  let event := { event with uid := eventData.uid }
  let event := { event with dtStart := eventData.startDate.toTimeZone utc }
  let event := { event with dtEnd := eventData.endDate.toTimeZone utc }
  let event := { event with description := eventData.description }
  let event := { event with categories := eventData.categories }
  let event := { event with summary := eventData.summary }
  let event := { event with allDay := eventData.allDay }
  let event := { event with location := eventData.location }
  { event with url := eventData.url }

/-- `EventController::addEdit`: the response, the controller and the calendar after the
call. `calendar` is `none` for a null pointer; `freshUid` is the identity the library
gives to an event made by `new Event()`. -/
def EventController.addEdit (self : EventController) (calendar : Option LocalCalendar)
    (eventData : EventData) (freshUid : String) :
    AddEditResponse × EventController × Option LocalCalendar :=
  match calendar with
  | none =>
    ({ status := .NoCalendarExists, message := i18n "Error during event creation" }, self, none)
  | some calendar =>
    let eventCheckResult := eventCheck calendar eventData
    if eventCheckResult.result = .Exists then
      ({ status := .NoCalendarExists, message := i18n "Already in favorites" }, self,
        some calendar)
    else
      let memoryCalendar := calendar.memorycalendar
      let uid := eventData.uid
      let event := editedEvent (memoryCalendar.event uid) freshUid eventData
      let memoryCalendar := memoryCalendar.addEvent event
      let calendar := { calendar with memorycalendar := memoryCalendar }
      let message :=
        if eventCheckResult.result = .NotExistsButOverlaps then
          i18nArg "Talk added to favorites, but it overlaps with existing ones:\n"
            eventCheckResult.events
        else i18n "Talk added to favorites"
      match self.m_cal_controller with
      | some controller =>
        ({ status := eventCheckResult.result, message := message },
          { self with m_cal_controller := some (controller.save calendar.calendarId) },
          some { calendar with eventsChanged := calendar.eventsChanged + 1 })
      | none =>
        ({ status := eventCheckResult.result, message := message }, self, some calendar)

/-! ## JSON sources and configuration -/

/-- A JSON value as Qt holds it. A number carries the text `QVariant::toString` gives
for it; `undefined` is what `QJsonObject::operator[]` gives for a missing key. -/
inductive QJsonValue where
  | undefined
  | null
  | bool (b : Bool)
  | number (text : String)
  | string (s : String)
  | array (items : List QJsonValue)
  | object (members : List (String × QJsonValue))

/-- A `QJsonObject`: its members by key. -/
abbrev QJsonObject := List (String × QJsonValue)

/-- `QJsonObject::operator[]`. -/
def QJsonObject.value (obj : QJsonObject) (key : String) : QJsonValue :=
  match obj.lookup key with
  | some v => v
  | none => .undefined

/-- `QJsonValue::toString`: the string held, or the empty string for any other value. -/
def QJsonValue.toString : QJsonValue → String
  | .string s => s
  | _ => ""

/-- `QVariant::toString` of the variant of a JSON value. -/
def QJsonValue.variantToString : QJsonValue → String
  | .string s => s
  | .number text => text
  | .bool true => "true"
  | .bool false => "false"
  | _ => ""

/-- `toVariant().toStringList()`: a string gives a one-element list, a list gives the
strings of its elements, anything else the empty list. -/
def QJsonValue.toStringList : QJsonValue → List String
  | .string s => [s]
  | .array items => items.map QJsonValue.variantToString
  | _ => []

/-- `QVariant::toJsonObject` of the variant of a JSON value: the object, or an empty
object for any other value. -/
def QJsonValue.toJsonObject : QJsonValue → QJsonObject
  | .object members => members
  | _ => []

/-- A `QJsonDocument`: null when the text did not parse, otherwise an array or an object. -/
inductive QJsonDocument where
  | null
  | array (items : List QJsonValue)
  | object (members : QJsonObject)

/-- `QJsonDocument::isEmpty`. -/
def QJsonDocument.isEmpty : QJsonDocument → Bool
  | .null => true
  | .array items => items.isEmpty
  | .object members => members.isEmpty

/-- `QJsonDocument::isArray`. -/
def QJsonDocument.isArray : QJsonDocument → Bool
  | .array _ => true
  | _ => false

/-- `QJsonDocument::array().toVariantList()`. -/
def QJsonDocument.toVariantList : QJsonDocument → List QJsonValue
  | .array items => items
  | _ => []

/-- A `QFile`: whether it exists, whether opening it for reading succeeds, and the
document `QJsonDocument::fromJson` gives for its text. -/
structure QFile where
  fileExists : Bool
  opens : Bool
  document : QJsonDocument

/-- The group `general` of the `KConfig` file: its entries, the log of the entries
written (in call order), and the number of `sync` calls. -/
structure KConfig where
  general : List (String × String)
  written : List (String × String)
  synced : Nat
deriving DecidableEq, Repr

/-- `KConfigGroup::readEntry` with a default. -/
def KConfig.readEntry (config : KConfig) (key : String) (default : String) : String :=
  match config.general.lookup key with
  | some value => value
  | none => default

/-- `KConfigGroup::writeEntry`. -/
def KConfig.writeEntry (config : KConfig) (key : String) (value : String) : KConfig :=
  { config with
    general := (key, value) :: config.general.filter (fun entry => entry.1 != key)
    written := config.written ++ [(key, value)] }

/-- `KConfig::sync`. -/
def KConfig.sync (config : KConfig) : KConfig :=
  { config with synced := config.synced + 1 }

/-! ## The conference controller -/

/-- A `Conference` object: the properties its setters store. -/
structure Conference where
  id : String
  name : String
  description : String
  icalUrl : String
  days : List String
  venueImageUrl : String
  venueLatitude : String
  venueLongitude : String
  venueOsmUrl : String
  timeZoneId : String
deriving DecidableEq, Repr

/-- `new Conference()`: every property empty. -/
def Conference.new : Conference :=
  { id := "", name := "", description := "", icalUrl := "", days := [], venueImageUrl := "",
    venueLatitude := "", venueLongitude := "", venueOsmUrl := "", timeZoneId := "" }

/-- The `ConferenceController`: the catalogue, the active conference, the configuration,
and the number of times each of its signals was emitted. -/
structure ConferenceController where
  m_conferences : List Conference
  m_activeConferenceInfo : Conference
  config : KConfig
  conferencesChanged : Nat
  defaultConferenceIdChanged : Nat
  activeConferenceInfoChanged : Nat
deriving DecidableEq, Repr

/-- `ConferenceController::loadConference`. -/
def ConferenceController.loadConference (self : ConferenceController) (jsonObj : QJsonObject) :
    ConferenceController :=
  let conference := Conference.new
  let conference := { conference with id := (jsonObj.value "id").toString }
  let conference := { conference with name := (jsonObj.value "name").toString }
  let conference := { conference with description := (jsonObj.value "description").toString }
  let conference := { conference with icalUrl := (jsonObj.value "icalUrl").toString }
  let jsonDays := jsonObj.value "days"
  let conference := { conference with days := jsonDays.toStringList }
  let conference := { conference with venueImageUrl := (jsonObj.value "venueImageUrl").toString }
  let conference := { conference with venueLatitude := (jsonObj.value "venueLatitude").toString }
  let conference := { conference with venueLongitude := (jsonObj.value "venueLongitude").toString }
  let conference := { conference with venueOsmUrl := (jsonObj.value "venueOsmUrl").toString }
  let conference := { conference with timeZoneId := (jsonObj.value "timeZoneId").toString }
  { self with m_conferences := self.m_conferences ++ [conference] }

/-- `ConferenceController::loadConferencesFromFile`. A file that does not open leaves
the data empty, which parses to the null document. -/
def ConferenceController.loadConferencesFromFile (self : ConferenceController)
    (jsonFile : QFile) : ConferenceController :=
  if !jsonFile.fileExists then self
  else
    let jsonDoc := if jsonFile.opens then jsonFile.document else QJsonDocument.null
    let jsonVarList : List QJsonValue :=
      if !jsonDoc.isEmpty && jsonDoc.isArray then jsonDoc.toVariantList else []
    jsonVarList.foldl (fun self jsonVar => self.loadConference jsonVar.toJsonObject) self

/-- `ConferenceController::loadConferences`, given the bundled file and the user data
file (whose folder the code creates when missing). -/
def ConferenceController.loadConferences (self : ConferenceController)
    (preconfiguredFile userDataFile : QFile) : ConferenceController :=
  let loadPredefined := self.config.readEntry "loadPredefined" ""
  let self := if !self.m_conferences.isEmpty then { self with m_conferences := [] } else self
  let self :=
    if loadPredefined.isEmpty then
      let self := { self with config := (self.config.writeEntry "loadPredefined" "yes").sync }
      self.loadConferencesFromFile preconfiguredFile
    else if loadPredefined = "yes" then self.loadConferencesFromFile preconfiguredFile
    else self
  let self := self.loadConferencesFromFile userDataFile
  { self with conferencesChanged := self.conferencesChanged + 1 }

/-- The loop of `loadDefaultConference`: every catalogue record with the id overwrites
the properties of the active conference, one by one. -/
def loadDefaultConferenceLoop (conferenceId : String) :
    List Conference → Conference → Conference
  | [], active => active
  | cf :: rest, active =>
    if cf.id = conferenceId then
      let active := { active with id := cf.id }
      let active := { active with name := cf.name }
      let active := { active with description := cf.description }
      let active := { active with icalUrl := cf.icalUrl }
      let active := { active with days := cf.days }
      let active := { active with venueImageUrl := cf.venueImageUrl }
      let active := { active with venueLatitude := cf.venueLatitude }
      let active := { active with venueLongitude := cf.venueLongitude }
      let active := { active with venueOsmUrl := cf.venueOsmUrl }
      let active := { active with timeZoneId := cf.timeZoneId }
      loadDefaultConferenceLoop conferenceId rest active
    else loadDefaultConferenceLoop conferenceId rest active

/-- `ConferenceController::loadDefaultConference`. -/
def ConferenceController.loadDefaultConference (self : ConferenceController)
    (conferenceId : String) : ConferenceController :=
  if conferenceId.isEmpty then self
  else
    let active :=
      loadDefaultConferenceLoop conferenceId self.m_conferences self.m_activeConferenceInfo
    { self with
      m_activeConferenceInfo := active
      activeConferenceInfoChanged := self.activeConferenceInfoChanged + 1 }

/-- The JSON object of a conference record, by the catalogue schema: one member for each
property, the days as an array of strings. -/
def Conference.toJson (c : Conference) : QJsonValue :=
  .object [("id", .string c.id), ("name", .string c.name),
    ("description", .string c.description), ("icalUrl", .string c.icalUrl),
    ("days", .array (c.days.map QJsonValue.string)),
    ("venueImageUrl", .string c.venueImageUrl), ("venueLatitude", .string c.venueLatitude),
    ("venueLongitude", .string c.venueLongitude), ("venueOsmUrl", .string c.venueOsmUrl),
    ("timeZoneId", .string c.timeZoneId)]

/-- A source holding a list of conference records: an existing, readable file whose text
is the JSON array of the records, in order. -/
def sourceOf (records : List Conference) : QFile :=
  { fileExists := true, opens := true, document := .array (records.map Conference.toJson) }

/-! ## Sample data -/

/-- The instant `hours:minutes` UTC of 2024-05-01. -/
def may1 (hours minutes : Int) : QDateTime :=
  .dateTime (1714521600000 + (hours * 60 + minutes) * 60000) utc

/-- The instant `hours:minutes` UTC of 2024-05-02. -/
def may2 (hours minutes : Int) : QDateTime :=
  .dateTime (1714608000000 + (hours * 60 + minutes) * 60000) utc

/-- Event data with a uid, a time range and a summary, every other value empty. -/
def talk (uid : String) (startDate endDate : QDateTime) (summary : String) : EventData :=
  { uid := uid, startDate := startDate, endDate := endDate, description := "",
    categories := "", summary := summary, allDay := false, location := "", url := "" }

/-- A stored event with a uid, a time range and a summary, every other field empty. -/
def stored (uid : String) (dtStart dtEnd : QDateTime) (summary : String) : Event :=
  { uid := uid, dtStart := dtStart, dtEnd := dtEnd, description := "", categories := "",
    summary := summary, allDay := false, location := "", url := "" }

/-- The calendar `c1` in UTC holding the given events, with no signal emitted yet. -/
def calendarOf (events : List Event) : LocalCalendar :=
  { calendarId := "c1", memorycalendar := { events := events, timeZone := utc },
    eventsChanged := 0 }

/-- An event controller whose calendar controller has saved nothing yet. -/
def freshController : EventController :=
  { m_cal_controller := some { saved := [] } }

/-- Two calls of `addEdit` in a row: the second call runs on the controller and the
calendar the first call leaves; the result is that of the second call. -/
def addEditTwice (self : EventController) (calendar : Option LocalCalendar)
    (first second : EventData) (freshUid1 freshUid2 : String) :
    AddEditResponse × EventController × Option LocalCalendar :=
  let afterFirst := self.addEdit calendar first freshUid1
  afterFirst.2.1.addEdit afterFirst.2.2 second freshUid2

/-- A conference record with an id and a name, every other property empty. -/
def conference (id name : String) : Conference :=
  { Conference.new with id := id, name := name }

/-- A conference controller with the given entries in its configuration and the given
catalogue, an empty active conference, and no signal emitted or entry written yet. -/
def controllerWith (general : List (String × String)) (catalogue : List Conference) :
    ConferenceController :=
  { m_conferences := catalogue, m_activeConferenceInfo := Conference.new,
    config := { general := general, written := [], synced := 0 },
    conferencesChanged := 0, defaultConferenceIdChanged := 0,
    activeConferenceInfoChanged := 0 }

/-! ## The scan of `eventCheck` -/

theorem isEmpty_eq_false_iff (s : String) : s.isEmpty = false ↔ s ≠ "" := by
  have h := String.isEmpty_iff s
  cases hs : s.isEmpty
  · simp only [true_iff]
    intro hc
    rw [h.2 hc] at hs
    exact Bool.noConfusion hs
  · simp only [false_iff, Bool.true_eq_false, ne_eq, not_not]
    exact h.1 hs

theorem isEmpty_empty : ("" : String).isEmpty = true := rfl

theorem eventCheckLoop_eq_none_iff (eventStart eventEnd : QDateTime) (eventUid : String)
    (existing : List Event) (acc : List String) :
    eventCheckLoop eventStart eventEnd eventUid existing acc = none ↔
      eventUid ≠ "" ∧ ∃ e ∈ existing, e.uid = eventUid := by
  induction existing generalizing acc with
  | nil => simp [eventCheckLoop]
  | cons x rest ih =>
    by_cases hu : eventUid = ""
    · subst hu
      simp [eventCheckLoop, ih, isEmpty_empty]
    · have hne : eventUid.isEmpty = false := (isEmpty_eq_false_iff _).2 hu
      by_cases hx : x.uid = eventUid
      · simp [eventCheckLoop, hne, hx, hu]
      · simp [eventCheckLoop, hne, hx, hu, ih]

theorem eventCheckLoop_eq_some (eventStart eventEnd : QDateTime) (eventUid : String)
    (existing : List Event) (acc : List String)
    (h : eventUid = "" ∨ ∀ e ∈ existing, e.uid ≠ eventUid) :
    eventCheckLoop eventStart eventEnd eventUid existing acc =
      some (acc ++ (existing.filter (overlaps eventStart eventEnd)).map Event.summary) := by
  induction existing generalizing acc with
  | nil => simp [eventCheckLoop]
  | cons x rest ih =>
    have hrest : eventUid = "" ∨ ∀ e ∈ rest, e.uid ≠ eventUid := by
      rcases h with h | h
      · exact Or.inl h
      · exact Or.inr (fun e he => h e (List.mem_cons_of_mem _ he))
    have hx : (!(eventUid.isEmpty) && decide (x.uid = eventUid)) = false := by
      rcases h with h | h
      · subst h; simp [isEmpty_empty]
      · simp [h x (List.mem_cons_self _ _)]
    rw [eventCheckLoop]
    simp only [hx]
    by_cases ho : overlaps eventStart eventEnd x = true
    · simp [ho, ih _ hrest, List.filter_cons]
    · simp [ho, ih _ hrest, List.filter_cons]

theorem eventCheck_of_match (calendar : LocalCalendar) (event : EventData)
    (hs : event.startDate.isValid = true) (he : event.endDate.isValid = true)
    (hu : event.uid ≠ "")
    (hx : ∃ e ∈ calendar.memorycalendar.rawEventsForDate event.startDate.date
      calendar.memorycalendar.timeZone, e.uid = event.uid) :
    eventCheck calendar event = { result := .Exists, events := "" } := by
  have hl := (eventCheckLoop_eq_none_iff event.startDate event.endDate event.uid
    (calendar.memorycalendar.rawEventsForDate event.startDate.date
      calendar.memorycalendar.timeZone) []).2 ⟨hu, hx⟩
  simp [eventCheck, hs, he, hl]

theorem eventCheck_of_no_match (calendar : LocalCalendar) (event : EventData)
    (hs : event.startDate.isValid = true) (he : event.endDate.isValid = true)
    (hu : event.uid = "" ∨ ∀ e ∈ calendar.memorycalendar.rawEventsForDate
      event.startDate.date calendar.memorycalendar.timeZone, e.uid ≠ event.uid) :
    eventCheck calendar event =
      if (calendar.memorycalendar.rawEventsForDate event.startDate.date
          calendar.memorycalendar.timeZone).filter
          (overlaps event.startDate event.endDate) = [] then
        { result := .NotExistsNotOverlapping, events := "" }
      else
        { result := .NotExistsButOverlaps,
          events := join (((calendar.memorycalendar.rawEventsForDate event.startDate.date
            calendar.memorycalendar.timeZone).filter
            (overlaps event.startDate event.endDate)).map Event.summary) "\n" } := by
  have hl := eventCheckLoop_eq_some event.startDate event.endDate event.uid
    (calendar.memorycalendar.rawEventsForDate event.startDate.date
      calendar.memorycalendar.timeZone) [] hu
  simp only [eventCheck, hs, he, hl, List.nil_append]
  cases hf : (calendar.memorycalendar.rawEventsForDate event.startDate.date
      calendar.memorycalendar.timeZone).filter (overlaps event.startDate event.endDate) with
  | nil => simp
  | cons x rest => simp

/-! ## Properties of `eventCheck` -/

theorem eventCheck_of_invalid (calendar : LocalCalendar) (event : EventData)
    (h : event.startDate.isValid = false ∨ event.endDate.isValid = false) :
    eventCheck calendar event = { result := .NotExistsNotOverlapping, events := "" } := by
  rcases h with h | h <;> simp [eventCheck, h]

/-- C8: when the start date or the end date of the event data is invalid, `eventCheck`
returns `NotExistsNotOverlapping` with an empty list of overlapping events, whatever the
uid of the event data and whatever the calendar holds. -/
theorem eventCheck_invalid_dates (calendar : LocalCalendar) (event : EventData)
    (h : event.startDate.isValid = false ∨ event.endDate.isValid = false) :
    eventCheck calendar event = { result := .NotExistsNotOverlapping, events := "" } :=
  eventCheck_of_invalid calendar event h

theorem eventCheck_invalid_dates_witness :
    (talk "X" .invalid (may1 11 0) "Talk A").startDate.isValid = false ∧
      eventCheck (calendarOf [stored "X" (may1 10 0) (may1 11 0) "Talk A"])
        (talk "X" .invalid (may1 11 0) "Talk A") =
        { result := .NotExistsNotOverlapping, events := "" } :=
  ⟨rfl, eventCheck_invalid_dates _ _ (Or.inl rfl)⟩

/-- C2, as stated, fails: the calendar holds an event with uid `X` on 2024-05-02, the
event data carry uid `X` with a valid range on 2024-05-01, and `eventCheck` does not
return `Exists`: only the events of the start day are scanned. -/
theorem eventCheck_uid_on_another_day :
    (talk "X" (may1 10 0) (may1 11 0) "Talk A").startDate.isValid = true ∧
      (talk "X" (may1 10 0) (may1 11 0) "Talk A").endDate.isValid = true ∧
      (talk "X" (may1 10 0) (may1 11 0) "Talk A").uid ≠ "" ∧
      (∃ e ∈ (calendarOf [stored "X" (may2 10 0) (may2 11 0) "Talk A"]).memorycalendar.events,
        e.uid = (talk "X" (may1 10 0) (may1 11 0) "Talk A").uid) ∧
      (eventCheck (calendarOf [stored "X" (may2 10 0) (may2 11 0) "Talk A"])
        (talk "X" (may1 10 0) (may1 11 0) "Talk A")).result = .NotExistsNotOverlapping := by
  refine ⟨rfl, rfl, by decide, ⟨_, List.mem_singleton.2 rfl, rfl⟩, by decide⟩

/-- C2, amended: when the event data have valid start and end dates and a non-empty uid
equal to the uid of an event that the calendar returns for the start day, `eventCheck`
returns `Exists` with an empty list of overlapping events, whatever other events of the
day the time range overlaps. -/
theorem eventCheck_uid_precedence (calendar : LocalCalendar) (event : EventData)
    (hs : event.startDate.isValid = true) (he : event.endDate.isValid = true)
    (hu : event.uid ≠ "")
    (hx : ∃ e ∈ calendar.memorycalendar.rawEventsForDate event.startDate.date
      calendar.memorycalendar.timeZone, e.uid = event.uid) :
    eventCheck calendar event = { result := .Exists, events := "" } :=
  eventCheck_of_match calendar event hs he hu hx

theorem eventCheck_uid_precedence_witness :
    (∃ e ∈ (calendarOf [stored "Y" (may1 10 30) (may1 11 30) "Talk B",
        stored "X" (may1 14 0) (may1 15 0) "Talk A"]).memorycalendar.rawEventsForDate
        (talk "X" (may1 10 0) (may1 11 0) "Talk A").startDate.date utc,
        e.uid = "X" ∧ overlaps (may1 10 0) (may1 11 0) e = false) ∧
      (∃ e ∈ (calendarOf [stored "Y" (may1 10 30) (may1 11 30) "Talk B",
        stored "X" (may1 14 0) (may1 15 0) "Talk A"]).memorycalendar.rawEventsForDate
        (talk "X" (may1 10 0) (may1 11 0) "Talk A").startDate.date utc,
        e.uid = "Y" ∧ overlaps (may1 10 0) (may1 11 0) e = true) ∧
      eventCheck (calendarOf [stored "Y" (may1 10 30) (may1 11 30) "Talk B",
        stored "X" (may1 14 0) (may1 15 0) "Talk A"])
        (talk "X" (may1 10 0) (may1 11 0) "Talk A") = { result := .Exists, events := "" } :=
  ⟨⟨stored "X" (may1 14 0) (may1 15 0) "Talk A", by decide, rfl, by decide⟩,
    ⟨stored "Y" (may1 10 30) (may1 11 30) "Talk B", by decide, rfl, by decide⟩,
    eventCheck_uid_precedence _ _ rfl rfl (by decide)
      ⟨stored "X" (may1 14 0) (may1 15 0) "Talk A", by decide, rfl⟩⟩

/-- C3: for event data with valid dates and no uid match among the events of the start
day, `eventCheck` reports exactly the summaries, in store order and joined by newlines,
of the events `e` of the day with `start < e.dtEnd` and `end > e.dtStart`, and returns
`NotExistsButOverlaps` when that list is non-empty and `NotExistsNotOverlapping` when it
is empty. A range 10:00-11:00 against a stored 11:00-12:00 gives
`NotExistsNotOverlapping`, against a stored 10:30-11:30 it gives `NotExistsButOverlaps`. -/
theorem eventCheck_overlap_strictness :
    (∀ (calendar : LocalCalendar) (event : EventData),
      event.startDate.isValid = true → event.endDate.isValid = true →
      (event.uid = "" ∨ ∀ e ∈ calendar.memorycalendar.rawEventsForDate
        event.startDate.date calendar.memorycalendar.timeZone, e.uid ≠ event.uid) →
      (eventCheck calendar event).events =
          join (((calendar.memorycalendar.rawEventsForDate event.startDate.date
            calendar.memorycalendar.timeZone).filter
            (fun e => event.startDate.lt e.dtEnd && event.endDate.gt e.dtStart)).map
            Event.summary) "\n" ∧
        ((eventCheck calendar event).result = .NotExistsButOverlaps ↔
          (calendar.memorycalendar.rawEventsForDate event.startDate.date
            calendar.memorycalendar.timeZone).filter
            (fun e => event.startDate.lt e.dtEnd && event.endDate.gt e.dtStart) ≠ []) ∧
        ((eventCheck calendar event).result = .NotExistsNotOverlapping ↔
          (calendar.memorycalendar.rawEventsForDate event.startDate.date
            calendar.memorycalendar.timeZone).filter
            (fun e => event.startDate.lt e.dtEnd && event.endDate.gt e.dtStart) = [])) ∧
      eventCheck (calendarOf [stored "B" (may1 11 0) (may1 12 0) "Talk B"])
        (talk "A" (may1 10 0) (may1 11 0) "Talk A") =
        { result := .NotExistsNotOverlapping, events := "" } ∧
      eventCheck (calendarOf [stored "B" (may1 10 30) (may1 11 30) "Talk B"])
        (talk "A" (may1 10 0) (may1 11 0) "Talk A") =
        { result := .NotExistsButOverlaps, events := "Talk B" } := by
  refine ⟨?_, by decide, by decide⟩
  intro calendar event hs he hu
  have h := eventCheck_of_no_match calendar event hs he hu
  have hf : (fun e => event.startDate.lt e.dtEnd && event.endDate.gt e.dtStart) =
      overlaps event.startDate event.endDate := rfl
  rw [hf, h]
  cases hl : (calendar.memorycalendar.rawEventsForDate event.startDate.date
      calendar.memorycalendar.timeZone).filter (overlaps event.startDate event.endDate) with
  | nil =>
    have hj : "\n".intercalate ([] : List String) = "" := rfl
    simp [join, hj]
  | cons x rest => simp

theorem eventCheck_overlap_strictness_witness :
    (eventCheck (calendarOf [stored "B" (may1 9 0) (may1 10 30) "Talk B",
        stored "C" (may1 11 0) (may1 12 0) "Talk C",
        stored "D" (may1 10 45) (may1 11 15) "Talk D"])
        (talk "A" (may1 10 0) (may1 11 0) "Talk A")).events = "Talk B\nTalk D" ∧
      (eventCheck (calendarOf [stored "B" (may1 9 0) (may1 10 30) "Talk B",
        stored "C" (may1 11 0) (may1 12 0) "Talk C",
        stored "D" (may1 10 45) (may1 11 15) "Talk D"])
        (talk "A" (may1 10 0) (may1 11 0) "Talk A")).result = .NotExistsButOverlaps :=
  ⟨(eventCheck_overlap_strictness.1
      (calendarOf [stored "B" (may1 9 0) (may1 10 30) "Talk B",
        stored "C" (may1 11 0) (may1 12 0) "Talk C",
        stored "D" (may1 10 45) (may1 11 15) "Talk D"])
      (talk "A" (may1 10 0) (may1 11 0) "Talk A") rfl rfl
      (Or.inr (by decide))).1.trans (by decide),
    by decide⟩

/-- C10, as stated, fails: event data with a valid, zero-length range at 10:30 against a
stored event 10:00-11:00 of the same day are reported as overlapping, and `eventCheck`
returns `NotExistsButOverlaps`. -/
theorem eventCheck_zero_length_inside :
    (talk "" (may1 10 30) (may1 10 30) "Break").startDate.isValid = true ∧
      (talk "" (may1 10 30) (may1 10 30) "Break").endDate =
        (talk "" (may1 10 30) (may1 10 30) "Break").startDate ∧
      eventCheck (calendarOf [stored "A" (may1 10 0) (may1 11 0) "Talk A"])
        (talk "" (may1 10 30) (may1 10 30) "Break") =
        { result := .NotExistsButOverlaps, events := "Talk A" } := by
  refine ⟨rfl, rfl, by decide⟩

/-- C10, amended: for event data with valid dates and the start date equal to the end
date, `eventCheck` records as overlapping exactly the events of the day whose time range
strictly contains that instant (`e.dtStart < start` and `start < e.dtEnd`); it returns
`NotExistsButOverlaps` exactly when there is no uid match and some event of the day
strictly contains the instant, so never for an instant that only touches the start or the
end of the stored events. -/
theorem eventCheck_zero_length (calendar : LocalCalendar) (event : EventData)
    (hs : event.startDate.isValid = true) (heq : event.endDate = event.startDate) :
    (∀ e : Event, overlaps event.startDate event.endDate e =
        (e.dtStart.lt event.startDate && event.startDate.lt e.dtEnd)) ∧
      ((eventCheck calendar event).result = .NotExistsButOverlaps ↔
        (event.uid = "" ∨ ∀ e ∈ calendar.memorycalendar.rawEventsForDate
          event.startDate.date calendar.memorycalendar.timeZone, e.uid ≠ event.uid) ∧
        ∃ e ∈ calendar.memorycalendar.rawEventsForDate event.startDate.date
          calendar.memorycalendar.timeZone,
          e.dtStart.lt event.startDate = true ∧ event.startDate.lt e.dtEnd = true) := by
  have hov : ∀ e : Event, overlaps event.startDate event.endDate e =
      (e.dtStart.lt event.startDate && event.startDate.lt e.dtEnd) := by
    intro e
    simp only [overlaps, QDateTime.gt, heq]
    exact Bool.and_comm _ _
  refine ⟨hov, ?_⟩
  have he : event.endDate.isValid = true := by rw [heq]; exact hs
  by_cases hm : event.uid = "" ∨ ∀ e ∈ calendar.memorycalendar.rawEventsForDate
      event.startDate.date calendar.memorycalendar.timeZone, e.uid ≠ event.uid
  · rw [eventCheck_of_no_match calendar event hs he hm]
    cases hl : (calendar.memorycalendar.rawEventsForDate event.startDate.date
        calendar.memorycalendar.timeZone).filter (overlaps event.startDate event.endDate) with
    | nil =>
      have hnone : ∀ e ∈ calendar.memorycalendar.rawEventsForDate event.startDate.date
          calendar.memorycalendar.timeZone, overlaps event.startDate event.endDate e = false := by
        intro e hmem
        cases ho : overlaps event.startDate event.endDate e
        · rfl
        · have : e ∈ (calendar.memorycalendar.rawEventsForDate event.startDate.date
              calendar.memorycalendar.timeZone).filter (overlaps event.startDate event.endDate) :=
            List.mem_filter.2 ⟨hmem, ho⟩
          rw [hl] at this
          exact absurd this (List.not_mem_nil _)
      simp only [if_true]
      constructor
      · intro h
        exact Status.noConfusion h
      · rintro ⟨_, e, hmem, hc⟩
        have h1 := hnone e hmem
        rw [hov e, hc.1, hc.2] at h1
        exact Bool.noConfusion h1
    | cons x rest =>
      have hx : x ∈ (calendar.memorycalendar.rawEventsForDate event.startDate.date
          calendar.memorycalendar.timeZone).filter (overlaps event.startDate event.endDate) := by
        rw [hl]; exact List.mem_cons_self _ _
      have hx2 := List.mem_filter.1 hx
      have h3 := hx2.2
      rw [hov x] at h3
      simp only [Bool.and_eq_true] at h3
      simp only [reduceCtorEq, if_false]
      exact ⟨fun _ => ⟨hm, x, hx2.1, h3⟩, fun _ => trivial⟩
  · have hu : event.uid ≠ "" := fun h => hm (Or.inl h)
    have hx : ∃ e ∈ calendar.memorycalendar.rawEventsForDate event.startDate.date
        calendar.memorycalendar.timeZone, e.uid = event.uid := by
      by_contra hc
      exact hm (Or.inr (fun e hmem heq2 => hc ⟨e, hmem, heq2⟩))
    rw [eventCheck_of_match calendar event hs he hu hx]
    constructor
    · intro h
      exact Status.noConfusion h
    · intro h
      exact absurd h.1 hm

theorem eventCheck_zero_length_witness :
    (eventCheck (calendarOf [stored "A" (may1 10 0) (may1 11 0) "Talk A",
        stored "B" (may1 11 0) (may1 12 0) "Talk B"])
        (talk "" (may1 11 0) (may1 11 0) "Break")).result ≠ .NotExistsButOverlaps :=
  fun h =>
    absurd ((eventCheck_zero_length
      (calendarOf [stored "A" (may1 10 0) (may1 11 0) "Talk A",
        stored "B" (may1 11 0) (may1 12 0) "Talk B"])
      (talk "" (may1 11 0) (may1 11 0) "Break") rfl rfl).2.1 h).2 (by decide)

/-! ## The store under `addEvent` -/

theorem editedEvent_eq (found : Option Event) (freshUid : String) (eventData : EventData) :
    editedEvent found freshUid eventData = editedEvent none "" eventData := by
  cases found <;> rfl

theorem map_replace_of_absent (event : Event) (l : List Event)
    (h : ∀ x ∈ l, x.uid ≠ event.uid) :
    l.map (fun e => if e.uid = event.uid then event else e) = l := by
  induction l with
  | nil => rfl
  | cons x rest ih =>
    have hx : x.uid ≠ event.uid := h x (List.mem_cons_self _ _)
    have hr : ∀ y ∈ rest, y.uid ≠ event.uid := fun y hy => h y (List.mem_cons_of_mem _ hy)
    simp [hx, ih hr]

theorem filter_uid_of_absent (uid : String) (l : List Event) (h : ∀ x ∈ l, x.uid ≠ uid) :
    l.filter (fun x => decide (x.uid = uid)) = [] := by
  apply List.filter_eq_nil_iff.2
  intro x hx
  simpa using h x hx

theorem filter_uid_of_mem (l : List Event) (x : Event) (hn : (l.map Event.uid).Nodup)
    (hx : x ∈ l) : l.filter (fun y => decide (y.uid = x.uid)) = [x] := by
  induction l with
  | nil => exact absurd hx (List.not_mem_nil _)
  | cons y rest ih =>
    rw [List.map_cons, List.nodup_cons] at hn
    rcases List.mem_cons.1 hx with h | h
    · subst h
      have hr : ∀ z ∈ rest, z.uid ≠ x.uid := by
        intro z hz hc
        exact hn.1 (hc ▸ List.mem_map_of_mem Event.uid hz)
      simp [List.filter_cons, filter_uid_of_absent x.uid rest hr]
    · have hy : y.uid ≠ x.uid := by
        intro hc
        exact hn.1 (hc ▸ List.mem_map_of_mem Event.uid h)
      simp [List.filter_cons, hy, ih hn.2 h]

theorem filter_uid_map_replace (event : Event) (l : List Event)
    (hn : (l.map Event.uid).Nodup) (hx : ∃ x ∈ l, x.uid = event.uid) :
    (l.map (fun e => if e.uid = event.uid then event else e)).filter
      (fun y => decide (y.uid = event.uid)) = [event] := by
  induction l with
  | nil =>
    obtain ⟨x, hx, _⟩ := hx
    exact absurd hx (List.not_mem_nil _)
  | cons y rest ih =>
    rw [List.map_cons, List.nodup_cons] at hn
    by_cases hy : y.uid = event.uid
    · have hr : ∀ z ∈ rest, z.uid ≠ event.uid := by
        intro z hz hc
        exact hn.1 (hy ▸ hc ▸ List.mem_map_of_mem Event.uid hz)
      rw [List.map_cons, map_replace_of_absent event rest hr]
      simp [hy, List.filter_cons, filter_uid_of_absent event.uid rest hr]
    · have hx2 : ∃ x ∈ rest, x.uid = event.uid := by
        obtain ⟨x, hx, hxu⟩ := hx
        rcases List.mem_cons.1 hx with h | h
        · subst h; exact absurd hxu hy
        · exact ⟨x, h, hxu⟩
      rw [List.map_cons]
      simp [hy, List.filter_cons, ih hn.2 hx2]

theorem addEvent_filter_uid (cal : MemoryCalendar) (event : Event) (hk : cal.Keyed) :
    (cal.addEvent event).events.filter (fun y => decide (y.uid = event.uid)) = [event] := by
  unfold MemoryCalendar.addEvent
  by_cases ha : cal.events.any (fun e => decide (e.uid = event.uid)) = true
  · rw [if_pos ha]
    have hx : ∃ x ∈ cal.events, x.uid = event.uid := by
      simpa using ha
    exact filter_uid_map_replace event cal.events hk hx
  · rw [if_neg ha]
    have hx : ∀ x ∈ cal.events, x.uid ≠ event.uid := by
      simpa using ha
    simp [List.filter_append, filter_uid_of_absent event.uid cal.events hx]

theorem addEvent_idempotent (cal : MemoryCalendar) (event : Event) :
    (cal.addEvent event).addEvent event = cal.addEvent event := by
  by_cases ha : cal.events.any (fun e => decide (e.uid = event.uid)) = true
  · have h1 : cal.addEvent event =
        { cal with events := cal.events.map (fun e => if e.uid = event.uid then event else e) } := by
      unfold MemoryCalendar.addEvent; rw [if_pos ha]
    have ha2 : (cal.events.map (fun e => if e.uid = event.uid then event else e)).any
        (fun e => decide (e.uid = event.uid)) = true := by
      obtain ⟨x, hx, hxu⟩ : ∃ x ∈ cal.events, x.uid = event.uid := by simpa using ha
      rw [List.any_eq_true]
      refine ⟨event, ?_, by simp⟩
      rw [List.mem_map]
      exact ⟨x, hx, by simp [hxu]⟩
    rw [h1]
    unfold MemoryCalendar.addEvent
    simp only [ha2, if_true, List.map_map]
    congr 1
    apply List.map_congr_left
    intro x _
    by_cases hxu : x.uid = event.uid <;> simp [hxu]
  · have h1 : cal.addEvent event = { cal with events := cal.events ++ [event] } := by
      unfold MemoryCalendar.addEvent; rw [if_neg ha]
    have hx : ∀ x ∈ cal.events, x.uid ≠ event.uid := by simpa using ha
    rw [h1]
    unfold MemoryCalendar.addEvent
    have ha2 : (cal.events ++ [event]).any (fun e => decide (e.uid = event.uid)) = true := by
      simp
    simp only [ha2, if_true, List.map_append, map_replace_of_absent event cal.events hx]
    simp

/-! ## Properties of `addEdit` -/

theorem addEdit_of_exists (self : EventController) (calendar : LocalCalendar)
    (eventData : EventData) (freshUid : String)
    (h : (eventCheck calendar eventData).result = .Exists) :
    self.addEdit (some calendar) eventData freshUid =
      ({ status := .NoCalendarExists, message := "Already in favorites" }, self,
        some calendar) := by
  simp [EventController.addEdit, h, i18n]

theorem addEdit_of_not_exists (self : EventController) (calendar : LocalCalendar)
    (eventData : EventData) (freshUid : String)
    (h : (eventCheck calendar eventData).result ≠ .Exists) :
    ∃ after : LocalCalendar,
      (self.addEdit (some calendar) eventData freshUid).2.2 = some after ∧
      after.memorycalendar =
        calendar.memorycalendar.addEvent (editedEvent none "" eventData) ∧
      after.calendarId = calendar.calendarId := by
  cases hc : self.m_cal_controller with
  | none =>
    refine ⟨{ calendar with memorycalendar :=
      calendar.memorycalendar.addEvent (editedEvent none "" eventData) }, ?_, rfl, rfl⟩
    simp only [EventController.addEdit, h, if_false, hc]
    rw [editedEvent_eq]
  | some controller =>
    refine ⟨{ calendar with
      memorycalendar := calendar.memorycalendar.addEvent (editedEvent none "" eventData)
      eventsChanged := calendar.eventsChanged + 1 }, ?_, rfl, rfl⟩
    simp only [EventController.addEdit, h, if_false, hc]
    rw [editedEvent_eq]

theorem eventCheck_exists_mem (calendar : LocalCalendar) (event : EventData)
    (h : (eventCheck calendar event).result = .Exists) :
    ∃ e ∈ calendar.memorycalendar.events, e.uid = event.uid := by
  cases hs : event.startDate.isValid with
  | false =>
    rw [eventCheck_of_invalid calendar event (Or.inl hs)] at h
    exact Status.noConfusion h
  | true =>
    cases he : event.endDate.isValid with
    | false =>
      rw [eventCheck_of_invalid calendar event (Or.inr he)] at h
      exact Status.noConfusion h
    | true =>
      by_cases hm : event.uid = "" ∨ ∀ e ∈ calendar.memorycalendar.rawEventsForDate
          event.startDate.date calendar.memorycalendar.timeZone, e.uid ≠ event.uid
      · rw [eventCheck_of_no_match calendar event hs he hm] at h
        split at h <;> exact Status.noConfusion h
      · have hx : ∃ e ∈ calendar.memorycalendar.rawEventsForDate event.startDate.date
            calendar.memorycalendar.timeZone, e.uid = event.uid := by
          by_contra hc
          exact hm (Or.inr (fun e hmem heq2 => hc ⟨e, hmem, heq2⟩))
        obtain ⟨e, hmem, hu⟩ := hx
        refine ⟨e, ?_, hu⟩
        unfold MemoryCalendar.rawEventsForDate at hmem
        split at hmem
        · exact absurd hmem (List.not_mem_nil _)
        · exact (List.mem_filter.1 hmem).1

/-- C7: when the calendar is absent, or when `eventCheck` gives `Exists`, `addEdit`
returns status `NoCalendarExists` (with the error message, respectively the message that
the talk is already in favourites) and leaves the controller and the calendar as they
were: the store is unchanged, nothing is saved and no `eventsChanged` is emitted. -/
theorem addEdit_rejected_unchanged (self : EventController) (calendar : Option LocalCalendar)
    (eventData : EventData) (freshUid : String)
    (h : calendar = none ∨
      ∃ c, calendar = some c ∧ (eventCheck c eventData).result = .Exists) :
    (self.addEdit calendar eventData freshUid).1.status = .NoCalendarExists ∧
      (calendar = none →
        (self.addEdit calendar eventData freshUid).1.message = "Error during event creation") ∧
      (calendar ≠ none →
        (self.addEdit calendar eventData freshUid).1.message = "Already in favorites") ∧
      (self.addEdit calendar eventData freshUid).2.1 = self ∧
      (self.addEdit calendar eventData freshUid).2.2 = calendar := by
  rcases h with h | ⟨c, h, hex⟩
  · subst h
    exact ⟨rfl, fun _ => rfl, fun hn => absurd rfl hn, rfl, rfl⟩
  · subst h
    rw [addEdit_of_exists self c eventData freshUid hex]
    exact ⟨rfl, fun hn => Option.noConfusion hn, fun _ => rfl, rfl, rfl⟩

theorem addEdit_rejected_unchanged_witness :
    (eventCheck (calendarOf [stored "X" (may1 10 0) (may1 11 0) "Talk A"])
        (talk "X" (may1 10 0) (may1 11 0) "Talk A")).result = .Exists ∧
      freshController.addEdit (some (calendarOf [stored "X" (may1 10 0) (may1 11 0) "Talk A"]))
        (talk "X" (may1 10 0) (may1 11 0) "Talk A") "fresh" =
        ({ status := .NoCalendarExists, message := "Already in favorites" }, freshController,
          some (calendarOf [stored "X" (may1 10 0) (may1 11 0) "Talk A"])) := by
  have h := addEdit_rejected_unchanged freshController
    (some (calendarOf [stored "X" (may1 10 0) (may1 11 0) "Talk A"]))
    (talk "X" (may1 10 0) (may1 11 0) "Talk A") "fresh"
    (Or.inr ⟨_, rfl, by decide⟩)
  refine ⟨by decide, ?_⟩
  refine Prod.ext ?_ (Prod.ext h.2.2.2.1 h.2.2.2.2)
  have hm := h.2.2.1 (fun hc => Option.noConfusion hc)
  have hst := h.1
  revert hm hst
  generalize (freshController.addEdit
    (some (calendarOf [stored "X" (may1 10 0) (may1 11 0) "Talk A"]))
    (talk "X" (may1 10 0) (may1 11 0) "Talk A") "fresh").1 = r
  intro hm hst
  cases r
  simp only at hm hst
  rw [hm, hst]

/-- C6: the code breaks the claim. From an empty store, `addEdit` with the talk without
uid from 10:00 to 11:00 returns `NotExistsNotOverlapping` and stores it, but under the
empty uid: the identity `fresh-1` of the new event is wiped by `setUid`. A second
`addEdit` with the talk without uid from 10:30 to 11:30 returns `NotExistsButOverlaps`
with a message listing `Talk A`, yet the lookup by the empty uid finds `Talk A` and
overwrites it: the store holds one event, `Talk B`, where the claim has two. -/
theorem addEdit_second_talk_replaces :
    (freshController.addEdit (some (calendarOf []))
        (talk "" (may1 10 0) (may1 11 0) "Talk A") "fresh-1").1.status =
        .NotExistsNotOverlapping ∧
      (freshController.addEdit (some (calendarOf []))
        (talk "" (may1 10 0) (may1 11 0) "Talk A") "fresh-1").2.2.map
        (fun c => c.memorycalendar.events) =
        some [stored "" (may1 10 0) (may1 11 0) "Talk A"] ∧
      (addEditTwice freshController (some (calendarOf []))
        (talk "" (may1 10 0) (may1 11 0) "Talk A")
        (talk "" (may1 10 30) (may1 11 30) "Talk B") "fresh-1" "fresh-2").1 =
        { status := .NotExistsButOverlaps,
          message := "Talk added to favorites, but it overlaps with existing ones:\nTalk A" } ∧
      (addEditTwice freshController (some (calendarOf []))
        (talk "" (may1 10 0) (may1 11 0) "Talk A")
        (talk "" (may1 10 30) (may1 11 30) "Talk B") "fresh-1" "fresh-2").2.2.map
        (fun c => c.memorycalendar.events.length) = some 1 ∧
      (addEditTwice freshController (some (calendarOf []))
        (talk "" (may1 10 0) (may1 11 0) "Talk A")
        (talk "" (may1 10 30) (may1 11 30) "Talk B") "fresh-1" "fresh-2").2.2.map
        (fun c => c.memorycalendar.events) =
        some [stored "" (may1 10 30) (may1 11 30) "Talk B"] := by
  refine ⟨by decide, by decide, by decide, by decide, by decide⟩

/-- C1, as stated, fails: the store holds an event with uid `X` and summary `Old title` on
the start day of the event data; two calls of `addEdit` with event data of uid `X` and
summary `New title` are both rejected as `Exists`, and the one event with uid `X` still
carries `Old title`, not the summary of the second call. -/
theorem addEdit_twice_keeps_existing :
    (calendarOf [stored "X" (may1 10 0) (may1 11 0) "Old title"]).memorycalendar.Keyed ∧
      (addEditTwice freshController
        (some (calendarOf [stored "X" (may1 10 0) (may1 11 0) "Old title"]))
        (talk "X" (may1 10 0) (may1 11 0) "New title")
        (talk "X" (may1 10 0) (may1 11 0) "New title") "fresh-1" "fresh-2").2.2.map
        (fun c => c.memorycalendar.events.filter (fun e => decide (e.uid = "X"))) =
        some [stored "X" (may1 10 0) (may1 11 0) "Old title"] ∧
      (stored "X" (may1 10 0) (may1 11 0) "Old title").summary ≠
        (talk "X" (may1 10 0) (may1 11 0) "New title").summary := by
  refine ⟨by decide, by decide, by decide⟩

/-- C1, amended: on a calendar whose store is keyed by uid, calling `addEdit` twice in a
row with the same event data leaves the store with exactly one event carrying the uid of
the event data. Unless the first call is rejected as `Exists` (an event of the start day
already carries the uid), that event has the uid, the start and end (in UTC), the
description, categories, summary, all-day flag, location and url of the event data; when
the first call is rejected as `Exists`, both calls leave the calendar as it was. -/
theorem addEdit_twice_same_data (self : EventController) (calendar : LocalCalendar)
    (eventData : EventData) (freshUid1 freshUid2 : String)
    (hk : calendar.memorycalendar.Keyed) :
    ∃ after : LocalCalendar,
      (addEditTwice self (some calendar) eventData eventData freshUid1 freshUid2).2.2 =
        some after ∧
      ∃ e : Event,
        after.memorycalendar.events.filter (fun x => decide (x.uid = eventData.uid)) = [e] ∧
        ((eventCheck calendar eventData).result ≠ .Exists →
          e.uid = eventData.uid ∧
          e.dtStart = eventData.startDate.toTimeZone utc ∧
          e.dtEnd = eventData.endDate.toTimeZone utc ∧
          e.description = eventData.description ∧
          e.categories = eventData.categories ∧
          e.summary = eventData.summary ∧
          e.allDay = eventData.allDay ∧
          e.location = eventData.location ∧
          e.url = eventData.url) ∧
        ((eventCheck calendar eventData).result = .Exists → after = calendar) := by
  by_cases h1 : (eventCheck calendar eventData).result = .Exists
  · refine ⟨calendar, ?_, ?_⟩
    · simp only [addEditTwice, addEdit_of_exists self calendar eventData _ h1]
    · obtain ⟨e, hmem, hu⟩ := eventCheck_exists_mem calendar eventData h1
      refine ⟨e, ?_, fun hn => absurd h1 hn, fun _ => rfl⟩
      rw [← hu]
      exact filter_uid_of_mem calendar.memorycalendar.events e hk hmem
  · obtain ⟨mid, hmid, hstore, _⟩ :=
      addEdit_of_not_exists self calendar eventData freshUid1 h1
    have hfields : (editedEvent none "" eventData).uid = eventData.uid := rfl
    have hfilter : ∀ after : LocalCalendar, after.memorycalendar = mid.memorycalendar →
        after.memorycalendar.events.filter (fun x => decide (x.uid = eventData.uid)) =
          [editedEvent none "" eventData] := by
      intro after ha
      rw [ha, hstore]
      exact addEvent_filter_uid calendar.memorycalendar (editedEvent none "" eventData) hk
    by_cases h2 : (eventCheck mid eventData).result = .Exists
    · refine ⟨mid, ?_, editedEvent none "" eventData, hfilter mid rfl, ?_, fun hc => absurd hc h1⟩
      · simp only [addEditTwice, hmid, addEdit_of_exists _ mid eventData _ h2]
      · intro _
        exact ⟨rfl, rfl, rfl, rfl, rfl, rfl, rfl, rfl, rfl⟩
    · obtain ⟨last, hlast, hstore2, _⟩ :=
        addEdit_of_not_exists (self.addEdit (some calendar) eventData freshUid1).2.1 mid
          eventData freshUid2 h2
      have hsame : last.memorycalendar = mid.memorycalendar := by
        rw [hstore2, hstore, addEvent_idempotent]
      refine ⟨last, ?_, editedEvent none "" eventData, hfilter last hsame, ?_,
        fun hc => absurd hc h1⟩
      · simp only [addEditTwice, hmid, hlast]
      · intro _
        exact ⟨rfl, rfl, rfl, rfl, rfl, rfl, rfl, rfl, rfl⟩

theorem addEdit_twice_same_data_witness :
    (calendarOf [stored "Y" (may1 10 30) (may1 11 30) "Talk B"]).memorycalendar.Keyed ∧
      ∃ after : LocalCalendar,
        (addEditTwice freshController
          (some (calendarOf [stored "Y" (may1 10 30) (may1 11 30) "Talk B"]))
          (talk "X" (may1 10 0) (may1 11 0) "Talk A")
          (talk "X" (may1 10 0) (may1 11 0) "Talk A") "fresh-1" "fresh-2").2.2 = some after ∧
        after.memorycalendar.events.filter (fun x => decide (x.uid = "X")) =
          [stored "X" (may1 10 0) (may1 11 0) "Talk A"] := by
  refine ⟨by decide, ?_⟩
  obtain ⟨after, h1, e, h2, h3, _⟩ := addEdit_twice_same_data freshController
    (calendarOf [stored "Y" (may1 10 30) (may1 11 30) "Talk B"])
    (talk "X" (may1 10 0) (may1 11 0) "Talk A") "fresh-1" "fresh-2" (by decide)
  refine ⟨after, h1, ?_⟩
  have hne : (eventCheck (calendarOf [stored "Y" (may1 10 30) (may1 11 30) "Talk B"])
      (talk "X" (may1 10 0) (may1 11 0) "Talk A")).result ≠ .Exists := by decide
  obtain ⟨f1, f2, f3, f4, f5, f6, f7, f8, f9⟩ := h3 hne
  have he : e = stored "X" (may1 10 0) (may1 11 0) "Talk A" := by
    cases e
    simp only at f1 f2 f3 f4 f5 f6 f7 f8 f9
    subst f1 f2 f3 f4 f5 f6 f7 f8 f9
    rfl
  rw [← he]
  exact h2

/-! ## Loading the catalogue -/

theorem loadConference_toJson (self : ConferenceController) (c : Conference) :
    self.loadConference c.toJson.toJsonObject =
      { self with m_conferences := self.m_conferences ++ [c] } := by
  have hd : (c.days.map QJsonValue.string).map QJsonValue.variantToString = c.days := by
    rw [List.map_map]
    have : QJsonValue.variantToString ∘ QJsonValue.string = id := rfl
    rw [this, List.map_id]
  simp [ConferenceController.loadConference, Conference.toJson, QJsonValue.toJsonObject,
    QJsonObject.value, List.lookup, QJsonValue.toString, QJsonValue.toStringList, hd,
    Conference.new]

theorem foldl_loadConference_toJson (records : List Conference) (self : ConferenceController) :
    (records.map Conference.toJson).foldl
        (fun self jsonVar => self.loadConference jsonVar.toJsonObject) self =
      { self with m_conferences := self.m_conferences ++ records } := by
  induction records generalizing self with
  | nil => simp
  | cons c rest ih =>
    rw [List.map_cons, List.foldl_cons, loadConference_toJson, ih]
    simp

theorem loadConferencesFromFile_sourceOf (self : ConferenceController)
    (records : List Conference) :
    self.loadConferencesFromFile (sourceOf records) =
      { self with m_conferences := self.m_conferences ++ records } := by
  cases records with
  | nil =>
    simp [ConferenceController.loadConferencesFromFile, sourceOf, QJsonDocument.isEmpty]
  | cons c rest =>
    have h := foldl_loadConference_toJson (c :: rest) self
    simp only [ConferenceController.loadConferencesFromFile, sourceOf, QJsonDocument.isEmpty,
      QJsonDocument.isArray, QJsonDocument.toVariantList]
    simpa using h

theorem clear_conferences (self : ConferenceController) :
    (if !self.m_conferences.isEmpty then { self with m_conferences := [] } else self) =
      { self with m_conferences := [] } := by
  cases self with
  | mk confs active config c1 c2 c3 =>
    cases confs <;> rfl

theorem loadConferences_sourceOf (self : ConferenceController)
    (bundled user : List Conference) :
    self.loadConferences (sourceOf bundled) (sourceOf user) =
      if self.config.readEntry "loadPredefined" "" = "" then
        { self with
          m_conferences := bundled ++ user
          config := (self.config.writeEntry "loadPredefined" "yes").sync
          conferencesChanged := self.conferencesChanged + 1 }
      else if self.config.readEntry "loadPredefined" "" = "yes" then
        { self with
          m_conferences := bundled ++ user
          conferencesChanged := self.conferencesChanged + 1 }
      else
        { self with
          m_conferences := user
          conferencesChanged := self.conferencesChanged + 1 } := by
  unfold ConferenceController.loadConferences
  simp only [clear_conferences, loadConferencesFromFile_sourceOf]
  generalize self.config.readEntry "loadPredefined" "" = flag
  by_cases h1 : flag = ""
  · subst h1
    simp [isEmpty_empty]
  · have he : flag.isEmpty = false := (isEmpty_eq_false_iff _).2 h1
    by_cases h2 : flag = "yes"
    · subst h2
      have hy : ("yes" : String).isEmpty = false := rfl
      simp [hy]
    · simp [he, h1, h2]

theorem readEntry_writeEntry (config : KConfig) (key value default : String) :
    ((config.writeEntry key value).sync).readEntry key default = value := by
  simp [KConfig.readEntry, KConfig.writeEntry, KConfig.sync, List.lookup]

/-! ## Properties of the conference controller -/

/-- C4: for a bundled source and a user source, each holding a list of conference
records, with the load flag unset or `yes`, and for any prior catalogue,
`loadConferences` leaves the catalogue equal to the bundled records in file order
followed by the user records in file order; its length is the sum of the two lengths. -/
theorem loadConferences_catalog_order (self : ConferenceController)
    (bundled user : List Conference)
    (h : self.config.readEntry "loadPredefined" "" = "" ∨
      self.config.readEntry "loadPredefined" "" = "yes") :
    (self.loadConferences (sourceOf bundled) (sourceOf user)).m_conferences =
        bundled ++ user ∧
      (self.loadConferences (sourceOf bundled) (sourceOf user)).m_conferences.length =
        bundled.length + user.length := by
  have hc : (self.loadConferences (sourceOf bundled) (sourceOf user)).m_conferences =
      bundled ++ user := by
    rw [loadConferences_sourceOf]
    rcases h with h | h
    · rw [if_pos h]
    · by_cases h1 : self.config.readEntry "loadPredefined" "" = ""
      · rw [if_pos h1]
      · rw [if_neg h1, if_pos h]
  exact ⟨hc, by rw [hc, List.length_append]⟩

theorem loadConferences_catalog_order_witness :
    ((controllerWith [("loadPredefined", "yes")]
        [conference "old" "Old", conference "c1" "Conf1"]).loadConferences
        (sourceOf [conference "c1" "Conf1", conference "c2" "Conf2"])
        (sourceOf [conference "c3" "Conf3", conference "c1" "Conf1"])).m_conferences =
      [conference "c1" "Conf1", conference "c2" "Conf2", conference "c3" "Conf3",
        conference "c1" "Conf1"] :=
  (loadConferences_catalog_order
    (controllerWith [("loadPredefined", "yes")]
      [conference "old" "Old", conference "c1" "Conf1"])
    [conference "c1" "Conf1", conference "c2" "Conf2"]
    [conference "c3" "Conf3", conference "c1" "Conf1"] (Or.inr (by decide))).1

/-- C5: `loadConferences` includes the records of the bundled source exactly when the
persisted flag `loadPredefined` is unset (empty) or `yes`. When the flag is unset, the
call writes it once, as `yes`, so that a second call also includes the bundled source and
leaves the configuration as it is; when the flag holds a non-empty value, the
configuration is left unchanged, and for a value other than `yes` the bundled source
contributes no record. -/
theorem loadConferences_load_gate (self : ConferenceController)
    (bundled user : List Conference) :
    (self.loadConferences (sourceOf bundled) (sourceOf user)).m_conferences =
        (if self.config.readEntry "loadPredefined" "" = "" ∨
            self.config.readEntry "loadPredefined" "" = "yes" then bundled else []) ++ user ∧
      (self.config.readEntry "loadPredefined" "" = "" →
        (self.loadConferences (sourceOf bundled) (sourceOf user)).config.written =
            self.config.written ++ [("loadPredefined", "yes")] ∧
          (self.loadConferences (sourceOf bundled) (sourceOf user)).config.readEntry
            "loadPredefined" "" = "yes" ∧
          ((self.loadConferences (sourceOf bundled) (sourceOf user)).loadConferences
            (sourceOf bundled) (sourceOf user)).m_conferences = bundled ++ user ∧
          ((self.loadConferences (sourceOf bundled) (sourceOf user)).loadConferences
            (sourceOf bundled) (sourceOf user)).config =
            (self.loadConferences (sourceOf bundled) (sourceOf user)).config) ∧
      (self.config.readEntry "loadPredefined" "" ≠ "" →
        (self.loadConferences (sourceOf bundled) (sourceOf user)).config = self.config) := by
  refine ⟨?_, ?_, ?_⟩
  · rw [loadConferences_sourceOf]
    by_cases h1 : self.config.readEntry "loadPredefined" "" = ""
    · simp [h1]
    · by_cases h2 : self.config.readEntry "loadPredefined" "" = "yes"
      · simp [h1, h2]
      · simp [h1, h2]
  · intro h1
    have hfirst := loadConferences_sourceOf self bundled user
    rw [if_pos h1] at hfirst
    have hflag : (self.loadConferences (sourceOf bundled) (sourceOf user)).config.readEntry
        "loadPredefined" "" = "yes" := by
      rw [hfirst]
      exact readEntry_writeEntry _ _ _ _
    have hne : ¬ ((self.loadConferences (sourceOf bundled) (sourceOf user)).config.readEntry
        "loadPredefined" "" = "") := by
      rw [hflag]; decide
    have hsecond := loadConferences_sourceOf
      (self.loadConferences (sourceOf bundled) (sourceOf user)) bundled user
    rw [if_neg hne, if_pos hflag] at hsecond
    refine ⟨?_, hflag, ?_, ?_⟩
    · rw [hfirst]; rfl
    · rw [hsecond]
    · rw [hsecond]
  · intro h1
    rw [loadConferences_sourceOf, if_neg h1]
    by_cases h2 : self.config.readEntry "loadPredefined" "" = "yes"
    · rw [if_pos h2]
    · rw [if_neg h2]

theorem loadConferences_load_gate_witness :
    ((controllerWith [] []).loadConferences (sourceOf [conference "c1" "Conf1"])
        (sourceOf [conference "c2" "Conf2"])).config.written = [("loadPredefined", "yes")] ∧
      ((controllerWith [("loadPredefined", "no")] []).loadConferences
        (sourceOf [conference "c1" "Conf1"]) (sourceOf [conference "c2" "Conf2"])).config =
        (controllerWith [("loadPredefined", "no")] []).config ∧
      ((controllerWith [("loadPredefined", "no")] []).loadConferences
        (sourceOf [conference "c1" "Conf1"])
        (sourceOf [conference "c2" "Conf2"])).m_conferences = [conference "c2" "Conf2"] :=
  ⟨((loadConferences_load_gate (controllerWith [] []) [conference "c1" "Conf1"]
      [conference "c2" "Conf2"]).2.1 (by decide)).1,
    (loadConferences_load_gate (controllerWith [("loadPredefined", "no")] [])
      [conference "c1" "Conf1"] [conference "c2" "Conf2"]).2.2 (by decide),
    by decide⟩

theorem loadDefaultConferenceLoop_no_match (conferenceId : String) (catalogue : List Conference)
    (active : Conference) (h : ∀ cf ∈ catalogue, cf.id ≠ conferenceId) :
    loadDefaultConferenceLoop conferenceId catalogue active = active := by
  induction catalogue with
  | nil => rfl
  | cons cf rest ih =>
    have hcf : cf.id ≠ conferenceId := h cf (List.mem_cons_self _ _)
    rw [loadDefaultConferenceLoop, if_neg hcf]
    exact ih (fun x hx => h x (List.mem_cons_of_mem _ hx))

/-- C9: `loadDefaultConference` with an empty id leaves the controller as it is: every
property of the active conference is unchanged and no `activeConferenceInfoChanged` is
emitted. With a non-empty id that matches no record of the catalogue, the properties of
the active conference are unchanged and the signal is emitted exactly once. In neither
case is the catalogue modified. -/
theorem loadDefaultConference_no_op_but_notify (self : ConferenceController) :
    self.loadDefaultConference "" = self ∧
      ∀ conferenceId : String, conferenceId ≠ "" →
        (∀ cf ∈ self.m_conferences, cf.id ≠ conferenceId) →
        self.loadDefaultConference conferenceId =
          { self with activeConferenceInfoChanged := self.activeConferenceInfoChanged + 1 } := by
  refine ⟨?_, ?_⟩
  · simp [ConferenceController.loadDefaultConference, isEmpty_empty]
  · intro conferenceId hne hno
    have he : conferenceId.isEmpty = false := (isEmpty_eq_false_iff _).2 hne
    simp [ConferenceController.loadDefaultConference, he,
      loadDefaultConferenceLoop_no_match conferenceId self.m_conferences _ hno]

theorem loadDefaultConference_no_op_but_notify_witness :
    (controllerWith [] [conference "c1" "Conf1"]).loadDefaultConference "nonexistent" =
      { controllerWith [] [conference "c1" "Conf1"] with activeConferenceInfoChanged := 1 } :=
  (loadDefaultConference_no_op_but_notify (controllerWith [] [conference "c1" "Conf1"])).2
    "nonexistent" (by decide) (by decide)

end Kongress
